import Mathlib

/-!
Verification of the `claude-permissions-hook` permission-decision engine.

This file shallowly embeds the Rust sources of the repository:
data types from `src/protocol/{output,input}.rs`, the glob engine used by
`src/path.rs` and `src/config/rule.rs` (a model of the `globset` crate),
path normalization from `src/domain/path.rs` and `src/path.rs`, file rules
from `src/config/match_rule/files.rs` and `src/config/normalize/files.rs`,
bash rules from `src/config/rule.rs`, `src/config/match_rule/bash.rs`,
`src/config/parse/bash.rs` and `src/config/normalize/bash.rs`, the shell
command walker from `src/command/mod.rs`, the tool-use protocol from
`src/protocol/tool_use.rs`, and the decision engine from
`src/decision/{aggregation,bash,files}.rs`.

Conventions of the embedding:
* Environment access (`$HOME`) is explicit: every function that reads
  `$HOME` in Rust takes a `home : Option String` parameter here.
* Reason strings attached to outputs are not modeled; outputs are modeled
  by their permission decision, which is what the claims are about.
* Rust `str` operations are modeled by character-list functions (defined
  below) so that every definition evaluates inside the kernel; loops
  whose measure is not structural carry a fuel argument that provably
  dominates the number of iterations.
* `HashSet` fields are modeled as lists used only through membership.
-/

namespace CPH

/-! ## Rust string primitives

Character-list models of the `str` methods the sources use.  Each doc
comment names the Rust operation being modeled. -/

/-- Rust `str::starts_with(prefix)`. -/
def rust_starts_with (s p : String) : Bool :=
  p.data.isPrefixOf s.data

/-- Rust `&s[n..]` / iterator-drop of `n` characters (all uses in the
sources drop ASCII prefixes, where bytes and characters agree). -/
def string_drop (s : String) (n : Nat) : String :=
  ⟨s.data.drop n⟩

/-- Rust `str::contains(char)`. -/
def rust_contains_char (s : String) (c : Char) : Bool :=
  s.data.any (· == c)

/-- Rust `str::contains(substring)` on character lists. -/
def contains_sub (pat : List Char) : List Char → Bool
  | [] => pat.isEmpty
  | c :: rest => pat.isPrefixOf (c :: rest) || contains_sub pat rest

/-- The replacement loop of Rust `str::replace` on character lists:
at each position, a non-overlapping occurrence of `pat` is replaced by
`rep`, scanning left to right.  `fuel` dominates the number of steps
(each step consumes at least one character when `pat` is non-empty, and
every call site passes the input length plus one). -/
def replace_list (pat rep : List Char) : Nat → List Char → List Char
  | 0, cs => cs
  | _ + 1, [] => []
  | fuel + 1, c :: rest =>
    if pat ≠ [] && pat.isPrefixOf (c :: rest) then
      rep ++ replace_list pat rep fuel ((c :: rest).drop pat.length)
    else
      c :: replace_list pat rep fuel rest

/-- Rust `str::replace(pat, rep)` (for the non-empty patterns `<cwd>`
and `<home>` used by the sources). -/
def rust_replace (s pat rep : String) : String :=
  ⟨replace_list pat.data rep.data (s.data.length + 1) s.data⟩

/-- Rust `str::split(sep)` for a single-character separator, on
character lists.  Always returns at least one piece. -/
def split_char (sep : Char) : List Char → List (List Char)
  | [] => [[]]
  | c :: rest =>
    match split_char sep rest with
    | [] => if c == sep then [[], []] else [[c]]
    | piece :: pieces =>
      if c == sep then [] :: piece :: pieces
      else (c :: piece) :: pieces

/-- Rust `str::split_whitespace`: maximal non-whitespace runs. -/
def rust_split_whitespace (s : String) : List String :=
  ((split_char ' ' ((s.data.map (fun c => if c.isWhitespace then ' ' else c)))).filter
      (fun w => !w.isEmpty)).map String.mk

/-- Rust `str::trim`. -/
def rust_trim (s : String) : String :=
  ⟨((s.data.dropWhile Char.isWhitespace).reverse.dropWhile Char.isWhitespace).reverse⟩

/-- `Vec::join` / `[&str]::join(sep)` on character lists. -/
def join_with (sep : List Char) : List (List Char) → List Char
  | [] => []
  | [piece] => piece
  | piece :: rest => piece ++ sep ++ join_with sep rest

/-- `Decision` from `src/protocol/output.rs`: allow, ask or deny. -/
inductive Decision where
  | allow
  | ask
  | deny
  deriving DecidableEq, Repr, Inhabited

/-- Explicit severity ranking from `src/protocol/output.rs`:
Allow(0) < Ask(1) < Deny(2). -/
def Decision.severity : Decision → Nat
  | .allow => 0
  | .ask => 1
  | .deny => 2

/-- `PermissionMode` from `src/protocol/input.rs`. -/
inductive PermissionMode where
  | default
  | plan
  | acceptEdits
  | dontAsk
  | bypassPermissions
  deriving DecidableEq, Repr, Inhabited

/-- `FileOperation` from `src/protocol/tool_use.rs`. -/
inductive FileOperation where
  | read
  | write
  | edit
  | glob
  | grep
  deriving DecidableEq, Repr, Inhabited

/-! ## Glob engine: a model of the `globset` crate

`src/path.rs` compiles file patterns with `globset::Glob::new` (default
options, so `literal_separator` is off and a single `*` may match `/`);
`src/config/rule.rs` compiles bash positional patterns with
`GlobBuilder::new(raw).literal_separator(true)`, so there `*` does not
match `/`.  Parsing is shared (the option only changes the compiled
matcher), so the model has one token parser and a matcher parameterized
by `litSep : Bool`.

The model covers the glob constructs this repository's patterns use:
literal characters, backslash escapes, `?`, `*`, `**` (recursive, legal
only as a full path component, as in `globset`), and `[...]` character
classes (with `!` negation and `a-b` ranges).  Brace alternates are
treated as literal characters.  An invalid pattern (unclosed class,
inverted range, misplaced `**`) yields `none`, modeling `globset`'s
compile error. -/

/-- Glob tokens, mirroring `globset`'s internal `Token` type. -/
inductive GlobToken where
  /-- A literal character. -/
  | lit (c : Char)
  /-- `?`: any one character (`[^/]` when the separator is literal). -/
  | anyChar
  /-- `*`: any run of characters (`[^/]*` when the separator is literal). -/
  | zeroOrMore
  /-- `**/` at the start of a pattern: regex `(?:/?|.*/)`. -/
  | recursivePrefix
  /-- `/**` at the end of a pattern: regex `(?:/?|/.*)`. -/
  | recursiveSuffix
  /-- `/**/` in the middle of a pattern: regex `(?:/|/.*/)`. -/
  | recursiveZeroOrMore
  /-- `[...]` character class: negation flag and inclusive ranges. -/
  | charClass (negated : Bool) (ranges : List (Char × Char))
  deriving DecidableEq, Repr

/-- Parse the body of a `[...]` character class (after the optional `!`
and optional leading literal `]`).  Returns the ranges and the remaining
characters, or `none` when the class is unclosed or contains an inverted
range (`globset`'s compile errors). -/
def parseClassBody (acc : List (Char × Char)) :
    List Char → Option (List (Char × Char) × List Char)
  | [] => none
  | ']' :: rest => some (acc.reverse, rest)
  | lo :: '-' :: hi :: rest =>
    if hi = ']' then
      -- `a-]` closes the class: the `-` is a literal member, as in globset.
      some ((('-', '-') :: (lo, lo) :: acc).reverse, rest)
    else if lo ≤ hi then
      parseClassBody ((lo, hi) :: acc) rest
    else
      none
  | c :: rest => parseClassBody ((c, c) :: acc) rest

/-- Parse a `[...]` character class from the characters following `[`:
optional `!` negation, optional leading literal `]`, then the body.
Returns the class token and the remaining characters. -/
def parseClass (cs : List Char) : Option (GlobToken × List Char) :=
  match cs with
  | '!' :: ']' :: rest =>
    (parseClassBody [((']' : Char), (']' : Char))] rest).map
      (fun p => (.charClass true p.1, p.2))
  | '!' :: rest =>
    (parseClassBody [] rest).map (fun p => (.charClass true p.1, p.2))
  | ']' :: rest =>
    (parseClassBody [((']' : Char), (']' : Char))] rest).map
      (fun p => (.charClass false p.1, p.2))
  | rest =>
    (parseClassBody [] rest).map (fun p => (.charClass false p.1, p.2))

/-- Tokenize a glob pattern, mirroring `globset`'s parser.  `acc` holds
the reversed tokens built so far (needed because a trailing `/**` pops
the `/` literal that precedes it, and because `**` is a valid recursive
token only at the start of the pattern or after a `/`).  `fuel`
dominates the number of steps: every step consumes at least one
character, and `globParse` passes the input length plus one. -/
def globParseAux : Nat → List GlobToken → List Char → Option (List GlobToken)
  | 0, _, _ => none
  | _ + 1, acc, [] => some acc.reverse
  | fuel + 1, acc, cs =>
    match cs with
    | '\\' :: c :: rest => globParseAux fuel (.lit c :: acc) rest
    | ['\\'] => some (GlobToken.lit '\\' :: acc).reverse
    | '?' :: rest => globParseAux fuel (.anyChar :: acc) rest
    | '[' :: rest =>
      (match parseClass rest with
       | some (t, rest') => globParseAux fuel (t :: acc) rest'
       | none => none)
    | '*' :: '*' :: rest =>
      (match acc with
       | [] =>
         (match rest with
          | [] => some [GlobToken.recursivePrefix]
          | '/' :: rest' => globParseAux fuel [.recursivePrefix] rest'
          | _ => none)
       | .lit '/' :: acc' =>
         (match rest with
          | [] => some (GlobToken.recursiveSuffix :: acc').reverse
          | '/' :: rest' => globParseAux fuel (.recursiveZeroOrMore :: acc') rest'
          | _ => none)
       | _ => none)
    | '*' :: rest => globParseAux fuel (.zeroOrMore :: acc) rest
    | c :: rest => globParseAux fuel (.lit c :: acc) rest
    | [] => some acc.reverse

/-- Compile a glob pattern to tokens (`globset::Glob::new`); `none`
models a compile error. -/
def globParse (pattern : String) : Option (List GlobToken) :=
  globParseAux (pattern.data.length + 1) [] pattern.data

/-- Character class membership test for the compiled matcher. -/
def classMatches (c : Char) (negated : Bool) (ranges : List (Char × Char)) : Bool :=
  let inRange := ranges.any (fun r => r.1 ≤ c && c ≤ r.2)
  if negated then !inRange else inRange

/-- The three states of the glob matcher: matching the token sequence,
matching the `.*/` part of a recursive-prefix regex, or matching the
`/.*` part of a recursive-suffix regex. -/
inductive GlobMode where
  | core
  | starSlash
  | anyTail
  deriving DecidableEq, Repr

/-- The compiled matcher: does the token list match the character list?
`litSep` is `globset`'s `literal_separator` option: when true, `*` and
`?` do not match `/`.  Recursive tokens follow the regexes `globset`
compiles them to: `recursivePrefix` is `(?:/?|.*/)`, `recursiveSuffix`
is `(?:/?|/.*)`, `recursiveZeroOrMore` is `(?:/|/.*/)`.  Mode
`.starSlash` tries the remainder after each `/` (the `.*/` part), mode
`.anyTail` tries every proper suffix (the `/.*` part).  Every recursive
call decreases `ts.length + cs.length`, so the fuel passed by
`matchTokens` dominates the recursion depth. -/
def globMatchFuel (litSep : Bool) : Nat → GlobMode → List GlobToken → List Char → Bool
  | 0, _, _, _ => false
  | fuel + 1, .core, ts, cs =>
    (match ts, cs with
     | [], [] => true
     | [], _ :: _ => false
     | .lit c :: ts', c' :: cs' =>
       c' = c && globMatchFuel litSep fuel .core ts' cs'
     | .lit _ :: _, [] => false
     | .anyChar :: ts', c :: cs' =>
       (!(litSep && c = '/')) && globMatchFuel litSep fuel .core ts' cs'
     | .anyChar :: _, [] => false
     | .charClass neg rs :: ts', c :: cs' =>
       classMatches c neg rs && globMatchFuel litSep fuel .core ts' cs'
     | .charClass _ _ :: _, [] => false
     | .zeroOrMore :: ts', [] => globMatchFuel litSep fuel .core ts' []
     | .zeroOrMore :: ts', c :: cs' =>
       globMatchFuel litSep fuel .core ts' (c :: cs') ||
         ((!(litSep && c = '/')) &&
           globMatchFuel litSep fuel .core (.zeroOrMore :: ts') cs')
     | .recursivePrefix :: ts', cs =>
       globMatchFuel litSep fuel .core ts' cs ||
         globMatchFuel litSep fuel .starSlash ts' cs
     | .recursiveSuffix :: ts', [] => globMatchFuel litSep fuel .core ts' []
     | .recursiveSuffix :: ts', c :: cs' =>
       globMatchFuel litSep fuel .core ts' (c :: cs') ||
         (c = '/' && (globMatchFuel litSep fuel .core ts' cs' ||
           globMatchFuel litSep fuel .anyTail ts' cs'))
     | .recursiveZeroOrMore :: _, [] => false
     | .recursiveZeroOrMore :: ts', c :: cs' =>
       c = '/' && (globMatchFuel litSep fuel .core ts' cs' ||
         globMatchFuel litSep fuel .starSlash ts' cs'))
  | fuel + 1, .starSlash, ts, cs =>
    (match cs with
     | [] => false
     | c :: cs' =>
       (c = '/' && globMatchFuel litSep fuel .core ts cs') ||
         globMatchFuel litSep fuel .starSlash ts cs')
  | fuel + 1, .anyTail, ts, cs =>
    (match cs with
     | [] => false
     | _ :: cs' =>
       globMatchFuel litSep fuel .core ts cs' ||
         globMatchFuel litSep fuel .anyTail ts cs')

/-- Match compiled tokens against a character list. -/
def matchTokens (litSep : Bool) (ts : List GlobToken) (cs : List Char) : Bool :=
  globMatchFuel litSep (ts.length + cs.length + 1) .core ts cs

/-! ## Path module -/

/-- `PathError` from `src/domain/path.rs`. -/
inductive PathError where
  | homeNotSet (path : String)
  deriving DecidableEq, Repr

/-- Model of Rust `std::path::Path::file_name` for Unix paths (used by
the wrapper detection in `src/command/mod.rs`): the last non-empty,
non-`.` component, unless it is `..`. -/
def pathFileName (s : String) : Option String :=
  let comps := (split_char '/' s.data).filter (fun c => c ≠ [] && c ≠ ['.'])
  match comps.getLast? with
  | none => none
  | some last => if last = ['.', '.'] then none else some (String.mk last)

/-- `Path::new(&s).file_name().and_then(|f| f.to_str()).unwrap_or(&s)`,
the basename idiom used throughout the sources. -/
def pathBasename (s : String) : String :=
  (pathFileName s).getD s

/-- `ProgramName::new` from `src/domain/program_name.rs`:
`raw.rsplit('/').next().unwrap_or(raw)`, i.e. the substring after the
last `/`. -/
def ProgramName.new (raw : String) : String :=
  String.mk ((split_char '/' raw.data).getLastD raw.data)

/-- `NormalizedPath::new` from `src/domain/path.rs`: expand a leading
`~` (failing with `HomeNotSet` when `$HOME` is absent), make the path
absolute against `cwd`, then logically collapse `.`, `..`, duplicate and
trailing slashes.  `$HOME` is the explicit `home` parameter. -/
def NormalizedPath.new (raw cwd : String) (home : Option String) :
    Except PathError String :=
  let step1 : Except PathError String :=
    if rust_starts_with raw "~" then
      match home with
      | none => .error (.homeNotSet raw)
      | some h => .ok ⟨h.data ++ raw.data.drop 1⟩
    else .ok raw
  match step1 with
  | .error e => .error e
  | .ok path =>
    let path : String := if rust_starts_with path "/" then path else ⟨cwd.data ++ '/' :: path.data⟩
    let components :=
      (split_char '/' path.data).foldl
        (fun acc part =>
          if part = [] || part = ['.'] then acc
          else if part = ['.', '.'] then acc.tail
          else part :: acc)
        []
    let components := components.reverse
    .ok (if components = [] then "/" else ⟨'/' :: join_with ['/'] components⟩)

/-- `matches` from `src/path.rs`: compile the pattern with
`globset::Glob::new` (default options, so `*` may cross `/`) and test
the path.  `none` models the `Err` returned for an invalid glob. -/
def pathMatches (path expandedPattern : String) : Option Bool :=
  (globParse expandedPattern).map (fun ts => matchTokens false ts path.data)

/-- `expand_home` from `src/config/normalize/files.rs`: expand `<home>`
and a leading `~` at config-load time; `<cwd>` is left untouched.
Returns `HomeNotSet` when `$HOME` is required but absent. -/
def expand_home (home : Option String) (pattern : String) :
    Except PathError String :=
  if !contains_sub "<home>".data pattern.data && !rust_starts_with pattern "~" then
    .ok pattern
  else
    match home with
    | none => .error (.homeNotSet pattern)
    | some h =>
      let result := rust_replace pattern "<home>" h
      if rust_starts_with result "~" then .ok ⟨h.data ++ result.data.drop 1⟩
      else .ok result

/-! ## File rules

`FileRule` carries `home_expanded_pattern`, computed once at load time
by `expand_home` (see `src/config/parse/files.rs` and the construction
in `src/decision/tests/files.rs`). -/

/-- `FileRule` as consumed by `src/config/match_rule/files.rs`. -/
structure FileRule where
  raw_pattern : String
  home_expanded_pattern : Except PathError String
  operations : List FileOperation
  line : Nat

/-- `FilesConfig` from `src/config/files.rs`: three rule tiers. -/
structure FilesConfig where
  deny : List FileRule := []
  ask : List FileRule := []
  allow : List FileRule := []

/-- `has_expansion_error` from `src/config/match_rule/files.rs`. -/
def has_expansion_error (rules : List FileRule) (operation : FileOperation) : Bool :=
  rules.any fun rule =>
    rule.operations.contains operation &&
      (match rule.home_expanded_pattern with
       | .error _ => true
       | .ok _ => false)

/-- `matches_any_rule` from `src/config/match_rule/files.rs`:
`error_means_match` makes invalid globs and failed home expansion count
as a match (fail-closed for deny/ask) or a non-match (for allow). -/
def matches_any_rule (rules : List FileRule) (normalized_path : String)
    (operation : FileOperation) (cwd : String) (error_means_match : Bool) : Bool :=
  rules.any fun rule =>
    if !rule.operations.contains operation then false
    else
      match rule.home_expanded_pattern with
      | .error _ => error_means_match
      | .ok home_expanded =>
        let expanded := rust_replace home_expanded "<cwd>" cwd
        (pathMatches normalized_path expanded).getD error_means_match

/-- `lookup` from `src/config/match_rule/files.rs`: fail-closed `Ask`
when any rule for the operation failed home expansion, then tiers in
order deny → ask → allow, `none` when nothing matches. -/
def FilesConfig.lookup (config : FilesConfig) (normalized_path : String)
    (operation : FileOperation) (cwd : String) : Option Decision :=
  if has_expansion_error config.deny operation
      || has_expansion_error config.ask operation
      || has_expansion_error config.allow operation then
    some .ask
  else if matches_any_rule config.deny normalized_path operation cwd true then
    some .deny
  else if matches_any_rule config.ask normalized_path operation cwd true then
    some .ask
  else if matches_any_rule config.allow normalized_path operation cwd false then
    some .allow
  else
    none

/-! ## Aggregation and mode modifier (`src/decision/aggregation.rs`) -/

/-- Rust `Iterator::max_by_key(severity)`: `none` on an empty list,
otherwise the last element of maximal severity. -/
def max_by_severity (decisions : List Decision) : Option Decision :=
  decisions.foldl
    (fun acc d =>
      match acc with
      | none => some d
      | some a => if a.severity ≤ d.severity then some d else some a)
    none

/-- `aggregate_decisions` from `src/decision/aggregation.rs`: `none`
when the list is empty or has no listed element, otherwise substitute
`Ask` for every `none` and take the most restrictive. -/
def aggregate_decisions (decisions : List (Option Decision)) : Option Decision :=
  if decisions.isEmpty then none
  else if !decisions.any (·.isSome) then none
  else max_by_severity (decisions.map (fun d => d.getD .ask))

/-- `apply_mode_modifier` from `src/decision/aggregation.rs`: Allow and
Deny are absolute; Ask becomes Allow under bypassPermissions and Deny
under dontAsk. -/
def apply_mode_modifier (decision : Decision) (mode : PermissionMode) : Decision :=
  match decision with
  | .allow => .allow
  | .deny => .deny
  | .ask =>
    match mode with
    | .bypassPermissions => .allow
    | .dontAsk => .deny
    | _ => .ask

/-! ## Tool-use protocol (`src/protocol/tool_use.rs`)

JSON values are modeled by a small inductive covering the shapes the
protocol reads: objects, strings, and the other variants only as
evidence of a wrong type. -/

/-- A model of `serde_json::Value`. -/
inductive Json where
  | null
  | bool (b : Bool)
  | num (n : Int)
  | str (s : String)
  | arr (elems : List Json)
  | obj (fields : List (String × Json))

/-- `Value::get(field)` on an object. -/
def Json.get (v : Json) (field : String) : Option Json :=
  match v with
  | .obj fields => fields.lookup field
  | _ => none

/-- `Value::as_str`. -/
def Json.asStr (v : Json) : Option String :=
  match v with
  | .str s => some s
  | _ => none

/-- `ToolUse` from `src/protocol/tool_use.rs`. -/
inductive ToolUse where
  | bash (command : Option String)
  | read (file_path : Option String)
  | write (file_path : Option String)
  | edit (file_path : Option String)
  | glob (path : Option String)
  | grep (path : Option String)
  | unknown (tool_name : String)
  deriving DecidableEq, Repr

/-- `extract_string` from `src/protocol/tool_use.rs`: a field that is
missing, not a string, or empty reduces to `none`. -/
def extract_string (value : Json) (field : String) : Option String :=
  ((value.get field).bind Json.asStr).filter (fun s => s ≠ "")

/-- `ToolUse::parse` from `src/protocol/tool_use.rs`.  Note that the
`Bash` arm reads `command` with only `.and_then(|v| v.as_str())` — no
non-empty filter. -/
def ToolUse.parse (tool_name : String) (tool_input : Json) : ToolUse :=
  match tool_name with
  | "Bash" => .bash ((tool_input.get "command").bind Json.asStr)
  | "Read" => .read (extract_string tool_input "file_path")
  | "Write" => .write (extract_string tool_input "file_path")
  | "Edit" => .edit (extract_string tool_input "file_path")
  | "Glob" => .glob (extract_string tool_input "path")
  | "Grep" => .grep (extract_string tool_input "path")
  | _ => .unknown tool_name

/-- `ToolUse::file_operation`. -/
def ToolUse.file_operation : ToolUse → Option FileOperation
  | .read _ => some .read
  | .write _ => some .write
  | .edit _ => some .edit
  | .glob _ => some .glob
  | .grep _ => some .grep
  | _ => none

/-- `ToolUse::file_paths`: Read/Write/Edit yield the file path or an
empty list (fail-closed); Glob/Grep default to `cwd`; other tools yield
`none`. -/
def ToolUse.file_paths (tu : ToolUse) (cwd : String) : Option (List String) :=
  match tu with
  | .read file_path | .write file_path | .edit file_path =>
    some (match file_path with
          | some p => [p]
          | none => [])
  | .glob path | .grep path => some [path.getD cwd]
  | _ => none

/-! ## Shell command walker (`src/command/mod.rs`)

The third-party shell grammar parser (`brush-parser`) is out of scope
(spec §1, §9): where the sources call `crate::command::parse` on an
arbitrary string it appears here as an explicit `shellParse` parameter.
The walker itself — wrapper unwrapping, consumed options, split-string
handling, flag expansion — is embedded faithfully at the level of a
simple command's name word and suffix items. -/

/-- `CommandSegment` from `src/command/mod.rs`; `program` holds the
basename produced by `ProgramName::new`. -/
structure CommandSegment where
  program : String
  args : List String
  deriving DecidableEq, Repr

/-- The type of the out-of-scope shell parser `crate::command::parse`:
source string to segments, or a parse error message. -/
def ShellParse : Type := String → Except String (List CommandSegment)

/-- An item of a simple command's suffix
(`ast::CommandPrefixOrSuffixItem`).  `other` covers `IoRedirect`,
`AssignmentWord` and `ProcessSubstitution`, which every walker function
skips identically. -/
inductive SuffixItem where
  | word (text : String)
  | other
  deriving DecidableEq, Repr

/-- `TRANSPARENT_WRAPPERS` from `src/command/mod.rs`. -/
def TRANSPARENT_WRAPPERS : List String := ["command", "env", "nohup", "exec", "builtin"]

/-- `expand_flags` from `src/command/mod.rs`: `-rf` → `["-r", "-f"]`;
`-`, `--`, long flags, single short flags and `=`-carrying tokens are
kept verbatim. -/
def expand_flags (arg : String) : List String :=
  if !rust_starts_with arg "-" || arg = "-" || arg = "--" || rust_starts_with arg "--"
      || rust_contains_char arg '=' then
    [arg]
  else
    let chars := arg.data.drop 1
    if chars.length = 1 then [arg]
    else chars.map (fun c => String.mk ['-', c])

/-- The shared suffix-to-args loop of `extract_args_from_suffix` and
`collect_remaining_args` (their bodies are textually identical in the
source): skip non-word items, keep `--` and everything after it
verbatim, flag-expand everything before it. -/
def args_from_items (end_of_options : Bool) : List SuffixItem → List String
  | [] => []
  | .other :: rest => args_from_items end_of_options rest
  | .word text :: rest =>
    if text = "--" then text :: args_from_items true rest
    else if end_of_options then text :: args_from_items end_of_options rest
    else expand_flags text ++ args_from_items end_of_options rest

/-- `collect_remaining_args` from `src/command/mod.rs`. -/
def collect_remaining_args (items : List SuffixItem) : List String :=
  args_from_items false items

/-- `extract_args_from_suffix` from `src/command/mod.rs`. -/
def extract_args_from_suffix (suffix : Option (List SuffixItem)) : List String :=
  match suffix with
  | none => []
  | some items => args_from_items false items

/-- `consuming_options_for` from `src/command/mod.rs`. -/
def consuming_options_for (wrapper_basename : String) : List String :=
  match wrapper_basename with
  | "env" => ["-u", "--unset", "-C", "--chdir", "-S", "--split-string", "-P"]
  | "exec" => ["-a"]
  | _ => []

/-- `SPLIT_STRING_OPTIONS` from `src/command/mod.rs`. -/
def SPLIT_STRING_OPTIONS : List String := ["-S", "--split-string"]

/-- `extract_inline_split_string` from `src/command/mod.rs`:
`--split-string=<v>` and attached `-S<v>` forms. -/
def extract_inline_split_string (text : String) : Option String :=
  if rust_starts_with text "--split-string=" && string_drop text "--split-string=".data.length ≠ "" then
    some (string_drop text "--split-string=".data.length)
  else if rust_starts_with text "-S" && string_drop text 2 ≠ ""
      && !rust_starts_with (string_drop text 2) " " then
    some (string_drop text 2)
  else
    none

/-- `strip_outer_quotes` from `src/command/mod.rs`. -/
def strip_outer_quotes (s : String) : String :=
  let cs := s.data
  if cs.length ≥ 2 &&
      ((cs.head? = some '"' && cs.getLast? = some '"') ||
       (cs.head? = some '\'' && cs.getLast? = some '\'')) then
    ⟨(cs.drop 1).dropLast⟩
  else s

/-- `NextProgram` from `src/command/mod.rs`. -/
inductive NextProgram where
  | single (prog : String)
  | fromSplitString (segments : List CommandSegment)
  | none
  deriving Repr

/-- One iteration of the `find_next_program` loop from
`src/command/mod.rs`, on the current item and the `skip_next` /
`parse_next_as_command` state.  `.inl np` is a `return np`, `.inr s`
is a `continue` with the new state. -/
def fnp_step (shellParse : ShellParse) (consuming_options : List String)
    (skip_next parse_next_as_command : Bool) (item : SuffixItem) :
    Sum NextProgram (Bool × Bool) :=
  if skip_next then
    if parse_next_as_command then
      match item with
      | .word w =>
        (match shellParse (strip_outer_quotes w) with
         | .ok segs =>
           if !segs.isEmpty then .inl (.fromSplitString segs) else .inr (false, false)
         | .error _ => .inr (false, false))
      | .other => .inr (false, false)
    else .inr (false, false)
  else
    match item with
    | .other => .inr (skip_next, parse_next_as_command)
    | .word text =>
      if rust_starts_with text "-" then
        match extract_inline_split_string text with
        | some payload =>
          (match shellParse (strip_outer_quotes payload) with
           | .ok segs =>
             if !segs.isEmpty then .inl (.fromSplitString segs)
             else .inr (skip_next, parse_next_as_command)
           | .error _ => .inr (skip_next, parse_next_as_command))
        | Option.none =>
          if consuming_options.contains text then
            .inr (true, SPLIT_STRING_OPTIONS.contains text)
          else .inr (skip_next, parse_next_as_command)
      else if rust_contains_char text '=' then .inr (skip_next, parse_next_as_command)
      else if text ≠ "" then .inl (.single text)
      else .inr (skip_next, parse_next_as_command)

/-- `find_next_program` from `src/command/mod.rs`: the next non-option,
non-assignment word, skipping consumed option arguments; `-S` payloads
are re-parsed with `shellParse`.  Also returns the unconsumed suffix
items (the state of the Rust iterator). -/
def find_next_program (shellParse : ShellParse) (consuming_options : List String)
    (skip_next parse_next_as_command : Bool) :
    List SuffixItem → NextProgram × List SuffixItem
  | [] => (.none, [])
  | item :: rest =>
    match fnp_step shellParse consuming_options skip_next parse_next_as_command item with
    | .inl np => (np, rest)
    | .inr (s₁, s₂) => find_next_program shellParse consuming_options s₁ s₂ rest

/-- `extract_wrapped_programs` from `src/command/mod.rs`: walk the
suffix behind a transparent wrapper to find the wrapped program(s),
switching the consuming-option context when another wrapper is found,
and appending trailing suffix args to the last split-string segment.
`fuel` dominates the number of loop iterations: each one consumes at
least one suffix item, and `extract_wrapped_programs` passes the item
count plus one. -/
def extract_wrapped_aux (shellParse : ShellParse) :
    Nat → List SuffixItem → String → List CommandSegment
  | 0, _, _ => []
  | fuel + 1, items, current_wrapper =>
    let opts := consuming_options_for current_wrapper
    match find_next_program shellParse opts false false items with
    | (.single prog, rest) =>
      let basename := pathBasename prog
      if TRANSPARENT_WRAPPERS.contains basename then
        extract_wrapped_aux shellParse fuel rest basename
      else
        [⟨ProgramName.new prog, collect_remaining_args rest⟩]
    | (.fromSplitString segs, rest) =>
      let trailing := collect_remaining_args rest
      if trailing.isEmpty then segs
      else
        (match segs.getLast? with
         | some last => segs.dropLast ++ [⟨last.program, last.args ++ trailing⟩]
         | Option.none => segs)
    | (.none, _) => []

/-- `extract_wrapped_programs` from `src/command/mod.rs`. -/
def extract_wrapped_programs (shellParse : ShellParse) (items : List SuffixItem)
    (current_wrapper : String) : List CommandSegment :=
  extract_wrapped_aux shellParse (items.length + 1) items current_wrapper

/-- The simple-command part of `visit_command` from
`src/command/mod.rs`: given the command's name word and suffix, emit the
segments the walker produces (wrapper unwrapping included). -/
def visit_simple_command (shellParse : ShellParse) (name : String)
    (suffix : Option (List SuffixItem)) : List CommandSegment :=
  if name = "" then []
  else
    let basename := pathBasename name
    let emitted :=
      if TRANSPARENT_WRAPPERS.contains basename then
        match suffix with
        | some items =>
          let unwrapped := extract_wrapped_programs shellParse items basename
          if !unwrapped.isEmpty then some unwrapped else Option.none
        | Option.none => Option.none
      else Option.none
    match emitted with
    | some segs => segs
    | Option.none => [⟨ProgramName.new name, extract_args_from_suffix suffix⟩]

/-! ## Bash rules (`src/config/rule.rs`) -/

/-- `PositionalPattern` from `src/config/rule.rs`: a raw glob string and
its compiled matcher (compiled with `literal_separator(true)`). -/
structure PositionalPattern where
  raw : String
  tokens : List GlobToken

/-- `compile_glob` from `src/config/rule.rs`:
`GlobBuilder::new(raw).literal_separator(true).build()`; `none` models
the compile error. -/
def compile_glob (raw : String) : Option PositionalPattern :=
  (globParse raw).map (fun ts => ⟨raw, ts⟩)

/-- `GlobMatcher::is_match` for a bash positional pattern: the literal
separator is on, so `*` and `?` do not match `/`. -/
def PositionalPattern.is_match (p : PositionalPattern) (s : String) : Bool :=
  matchTokens true p.tokens s.data

/-- `ArgumentPattern` from `src/config/rule.rs`. -/
structure ArgumentPattern where
  flag : String
  value : PositionalPattern

/-- `RuleConditions` from `src/config/rule.rs`; all fields default
empty, which means the rule matches any invocation of its program. -/
structure RuleConditions where
  required_flags : List String := []
  optional_flags : List String := []
  subcommand : List String := []
  positionals : List PositionalPattern := []
  required_arguments : List ArgumentPattern := []
  subcommands : List (List String) := []

/-- `BashRule` as used by the current generation
(`src/config/match_rule/bash.rs`, `src/config/parse/bash.rs`,
`src/decision/tests/mod.rs`): `program` is a `ProgramName`, i.e. already
basename-normalized when the rule is built (`ProgramName` is a newtype
over `String`, modeled as the normalized string itself). -/
structure BashRule where
  program : String
  conditions : RuleConditions

/-- `classify_args` from `src/config/match_rule/bash.rs`: flags start with `-` and
are not `-` alone; `--` ends option processing and is dropped; `-` and
everything after `--` are positionals. -/
def classify_args (end_of_options : Bool) : List String → List String × List String
  | [] => ([], [])
  | arg :: rest =>
    if end_of_options then
      let (f, p) := classify_args end_of_options rest
      (f, arg :: p)
    else if arg = "--" then classify_args true rest
    else if rust_starts_with arg "-" && arg ≠ "-" then
      let (f, p) := classify_args end_of_options rest
      (arg :: f, p)
    else
      let (f, p) := classify_args end_of_options rest
      (f, arg :: p)

/-- `find_argument_value` from `src/config/match_rule/bash.rs`: look for
`flag value` (value not itself a flag) or `flag=value`; a `--` token
terminates the search. -/
def find_argument_value (req : ArgumentPattern) : List String → Bool
  | [] => false
  | arg :: rest =>
    if arg = "--" then false
    else if arg = req.flag then
      (match rest.head? with
       | some next =>
         if (!rust_starts_with next "-" || next = "-") && req.value.is_match next then true
         else find_argument_value req rest
       | none => find_argument_value req rest)
    else if rust_starts_with arg req.flag
        && rust_starts_with (string_drop arg req.flag.data.length) "=" then
      (if req.value.is_match (string_drop arg (req.flag.data.length + 1)) then true
       else find_argument_value req rest)
    else find_argument_value req rest

/-- An ordered-prefix check: Rust's length guard plus zipped equality,
as written in `subcommand_matches` and `subcommands_match`. -/
def chain_is_ordered_prefix (chain actual : List String) : Bool :=
  chain.length ≤ actual.length &&
    (List.zip chain actual).all (fun p => p.1 == p.2)

/-- `program_matches` from `src/config/match_rule/bash.rs`: plain
equality — both sides are already basename-normalized `ProgramName`s
(the rule key by `parse_rule_entry`, the segment's program by the
walker). -/
def BashRule.program_matches (rule : BashRule) (segment : CommandSegment) : Bool :=
  rule.program == segment.program

/-- `flags_match` from `src/config/match_rule/bash.rs`. -/
def BashRule.flags_match (rule : BashRule) (segment : CommandSegment) : Bool :=
  let actual_flags := (classify_args false segment.args).1
  if !rule.conditions.required_flags.all (fun f => actual_flags.contains f) then false
  else if !rule.conditions.optional_flags.isEmpty
      && !rule.conditions.optional_flags.any (fun f => actual_flags.contains f) then false
  else true

/-- `subcommand_matches` from `src/config/match_rule/bash.rs`. -/
def BashRule.subcommand_matches (rule : BashRule) (segment : CommandSegment) : Bool :=
  if rule.conditions.subcommand.isEmpty then true
  else
    let actual_positionals := (classify_args false segment.args).2
    chain_is_ordered_prefix rule.conditions.subcommand actual_positionals

/-- `positionals_match` from `src/config/match_rule/bash.rs`. -/
def BashRule.positionals_match (rule : BashRule) (segment : CommandSegment) : Bool :=
  if rule.conditions.positionals.isEmpty then true
  else
    let actual_positionals := (classify_args false segment.args).2
    rule.conditions.positionals.all fun pattern =>
      actual_positionals.any fun arg => pattern.is_match arg

/-- `required_arguments_match` from `src/config/match_rule/bash.rs`. -/
def BashRule.required_arguments_match (rule : BashRule) (segment : CommandSegment) : Bool :=
  rule.conditions.required_arguments.all fun req => find_argument_value req segment.args

/-- `subcommands_match` from `src/config/match_rule/bash.rs`. -/
def BashRule.subcommands_match (rule : BashRule) (segment : CommandSegment) : Bool :=
  if rule.conditions.subcommands.isEmpty then true
  else
    let actual_positionals := (classify_args false segment.args).2
    rule.conditions.subcommands.any fun chain =>
      chain_is_ordered_prefix chain actual_positionals

/-- `BashRule::matches` from `src/config/match_rule/bash.rs`: the
conjunction of all condition checks. -/
def BashRule.matches (rule : BashRule) (segment : CommandSegment) : Bool :=
  rule.program_matches segment
    && rule.flags_match segment
    && rule.subcommand_matches segment
    && rule.positionals_match segment
    && rule.required_arguments_match segment
    && rule.subcommands_match segment

/-! ## Bash config (`src/config/bash.rs`) -/

/-- `BashConfig` from `src/config/bash.rs`. -/
structure BashConfig where
  allow : List BashRule := []
  deny : List BashRule := []
  ask : List BashRule := []

/-- `BashConfig::lookup` from `src/config/bash.rs`: precedence
deny > ask > allow, `none` for unlisted programs. -/
def BashConfig.lookup (config : BashConfig) (segment : CommandSegment) : Option Decision :=
  if config.deny.any (fun r => r.matches segment) then some .deny
  else if config.ask.any (fun r => r.matches segment) then some .ask
  else if config.allow.any (fun r => r.matches segment) then some .allow
  else none

/-- `ConfigError` from `src/config/mod.rs`; only the `ParseError` case
is reachable from the embedded functions (`NotFound` / `ReadError` are
produced by file I/O).  Error message text is abbreviated. -/
inductive ConfigError where
  | parseError (msg : String)
  deriving Repr

/-- `parse_rule_entry` from `src/config/parse/bash.rs`: a rule string
without whitespace is stored basename-normalized
(`ProgramName::new(trimmed)`) with empty conditions; otherwise the
string is parsed as a shell fragment, exactly one segment is required
(its program already a `ProgramName` from the walker), and its dash-args
become `required_flags` while the rest become the `subcommand`
prefix. -/
def parse_rule_entry (shellParse : ShellParse) (value : String) :
    Except ConfigError BashRule :=
  let trimmed := rust_trim value
  if trimmed = "" then .error (.parseError "empty rule string")
  else if (rust_split_whitespace trimmed).length ≤ 1 then
    .ok ⟨ProgramName.new trimmed, {}⟩
  else
    match shellParse trimmed with
    | .error e => .error (.parseError ("invalid rule: " ++ e))
    | .ok segments =>
      if segments.length > 1 then
        .error (.parseError "rule contains multiple commands")
      else
        match segments with
        | [] => .error (.parseError "no program found in rule")
        | segment :: _ =>
          let conditions := segment.args.foldl
            (fun c arg =>
              if rust_starts_with arg "-" then
                { c with required_flags := c.required_flags ++ [arg] }
              else
                { c with subcommand := c.subcommand ++ [arg] })
            {}
          .ok ⟨segment.program, conditions⟩

/-- `Flag::new` from `src/domain/flag.rs` (flag normalization applied
by `parse_children`). -/
def normalize_flag (s : String) : String :=
  if rust_starts_with s "-" then s
  else if s.data.length = 1 then ⟨'-' :: s.data⟩
  else ⟨'-' :: '-' :: s.data⟩

/-- `ChildNode` from `src/config/section.rs`. -/
structure ChildNode where
  name : String
  values : List String
  line : Nat

/-- `RuleEntry` from `src/config/section.rs`. -/
structure RuleEntry where
  values : List String
  children : Option (List ChildNode)
  line : Nat

/-- `parse_argument_pattern` from `src/config/parse/bash.rs`: split on the
first space into a flag and a glob for its value
(`value.splitn(2, ' ')`). -/
def parse_argument_pattern (value : String) : Except ConfigError ArgumentPattern :=
  match split_char ' ' value.data with
  | [] => .error (.parseError "required-arguments entry must have flag and value pattern")
  | [_] => .error (.parseError "required-arguments entry must have flag and value pattern")
  | flag :: restParts =>
    match compile_glob ⟨join_with [' '] restParts⟩ with
    | some pattern => .ok ⟨String.mk flag, pattern⟩
    | none => .error (.parseError "invalid glob pattern")

/-- `parse_children` from `src/config/parse/bash.rs`: children nodes extend a
rule's conditions; an unrecognized node name is a named positional
matcher. -/
def parse_children (children : List ChildNode) (conditions : RuleConditions) :
    Except ConfigError RuleConditions :=
  children.foldlM
    (fun conds child =>
      match child.name with
      | "required-flags" =>
        .ok { conds with
              required_flags := conds.required_flags ++ child.values.map normalize_flag }
      | "optional-flags" =>
        .ok { conds with
              optional_flags := conds.optional_flags ++ child.values.map normalize_flag }
      | "positionals" =>
        child.values.foldlM
          (fun c v =>
            match compile_glob v with
            | some p => .ok { c with positionals := c.positionals ++ [p] }
            | none => Except.error (ConfigError.parseError "invalid glob pattern"))
          conds
      | "required-arguments" =>
        child.values.foldlM
          (fun c v =>
            match parse_argument_pattern v with
            | .ok p => .ok { c with required_arguments := c.required_arguments ++ [p] }
            | .error e => .error e)
          conds
      | "subcommands" =>
        .ok { conds with
              subcommands := conds.subcommands ++ child.values.map rust_split_whitespace }
      | _ =>
        child.values.foldlM
          (fun c v =>
            match compile_glob v with
            | some p => .ok { c with positionals := c.positionals ++ [p] }
            | none => Except.error (ConfigError.parseError "invalid glob pattern"))
          conds)
    conditions

/-- `normalize_subcommand_chains` from `src/config/normalize/bash.rs`
(also inlined in `src/config/bash.rs`): when a rule has both an inline
subcommand and children `subcommands` chains, prepend the inline prefix
to every chain and clear the inline field. -/
def normalize_subcommand_chains (conditions : RuleConditions) : RuleConditions :=
  if conditions.subcommand.isEmpty || conditions.subcommands.isEmpty then conditions
  else
    { conditions with
      subcommands := conditions.subcommands.map (fun chain => conditions.subcommand ++ chain)
      subcommand := [] }

/-- `parse_rules` from `src/config/parse/bash.rs`: parse every rule
string of every entry; a children block extends the last parsed rule and
is then normalized by `normalize_subcommand_chains`. -/
def parse_rules (shellParse : ShellParse) (entries : List RuleEntry) :
    Except ConfigError (List BashRule) :=
  entries.foldlM
    (fun rules entry => do
      let newRules ← entry.values.mapM (parse_rule_entry shellParse)
      let rules := rules ++ newRules
      match entry.children with
      | some children =>
        (match rules.getLast? with
         | some last => do
           let conds ← parse_children children last.conditions
           let conds := normalize_subcommand_chains conds
           pure (rules.dropLast ++ [⟨last.program, conds⟩])
         | none => pure rules)
      | none => pure rules)
    []

/-! ## Decision engine (`src/decision/{mod,bash,files}.rs`) -/

/-- `Config` from `src/config/mod.rs` (current revision, as used by
`src/decision/tests/mod.rs`): both sections optional. -/
structure Config where
  bash : Option BashConfig := none
  files : Option FilesConfig := none

/-- The fields of `HookInput` (`src/protocol/input.rs`) the decision
engine reads. -/
structure HookInput where
  cwd : String
  permission_mode : PermissionMode
  tool_name : String
  tool_input : Json

/-- `evaluate_bash` from `src/decision/bash.rs`, modeled by its
decision: missing, empty or unparsable command and zero-segment results
are fail-closed `Ask`; no bash section is no opinion; otherwise look up
each segment, aggregate and apply the mode modifier. -/
def evaluate_bash (shellParse : ShellParse) (command : Option String)
    (input : HookInput) (config : Config) : Option Decision :=
  match command with
  | none => some .ask
  | some cmd =>
    if rust_trim cmd = "" then some .ask
    else
      match shellParse cmd with
      | .error _ => some .ask
      | .ok segments =>
        if segments.isEmpty then some .ask
        else
          match config.bash with
          | none => none
          | some bash =>
            let per_program := segments.map (fun seg => bash.lookup seg)
            match aggregate_decisions per_program with
            | some decision => some (apply_mode_modifier decision input.permission_mode)
            | none => none

/-- `evaluate_file_tool` from `src/decision/files.rs`, modeled by its
decision: no files section is no opinion; no extracted path is
fail-closed `Ask`; each path is normalized (`HomeNotSet` forces that
path's decision to `Ask`) and looked up; the results are aggregated and
the mode modifier applied. -/
def evaluate_file_tool (tool_use : ToolUse) (input : HookInput) (config : Config)
    (home : Option String) : Option Decision :=
  match config.files with
  | none => none
  | some files_config =>
    match tool_use.file_operation with
    | none => none
    | some operation =>
      match tool_use.file_paths input.cwd with
      | none => none
      | some paths =>
        if paths.isEmpty then some .ask
        else
          let per_path := paths.map fun p =>
            match NormalizedPath.new p input.cwd home with
            | .ok normalized => files_config.lookup normalized operation input.cwd
            | .error _ => some .ask
          match aggregate_decisions per_path with
          | some decision => some (apply_mode_modifier decision input.permission_mode)
          | none => none

/-- Modelled from the spec: the current top-level `evaluate` dispatch of
`src/decision/mod.rs` is not present under `src/` (the file there holds
an earlier bash-only revision, while its callees `evaluate_bash` and
`evaluate_file_tool` and its tests `src/decision/tests/*.rs` are
current).  Per spec §4.6: without a config, `Ask`; `Bash` dispatches to
`evaluate_bash`; `Read | Write | Edit | Glob | Grep` dispatch to
`evaluate_file_tool`; `Unknown` is no opinion. -/
def evaluate (shellParse : ShellParse) (input : HookInput)
    (config : Option Config) (home : Option String) : Option Decision :=
  match config with
  | none => some .ask
  | some cfg =>
    match ToolUse.parse input.tool_name input.tool_input with
    | .bash command => evaluate_bash shellParse command input cfg
    | .unknown _ => none
    | tu => evaluate_file_tool tu input cfg home

/-! ## Shared definitions for witnesses -/

/-- A trivial stand-in for the out-of-scope shell parser, used by
witnesses whenever the parser is irrelevant to the computation. -/
def shellParseNone : ShellParse := fun _ => .ok []

/-- A stand-in shell parser that knows the single fragment `git push`,
behaving as any faithful shell parser does on it (spec §4.1). -/
def shellParseGitPush : ShellParse := fun s =>
  if s = "git push" then .ok [⟨"git", ["push"]⟩] else .ok []

/-! ## Helper lemmas -/

/-- `max_by_severity` on a non-empty list: the result exists, is an
element, and dominates every element's severity. -/
theorem max_by_severity_spec (l : List Decision) (hne : l ≠ []) :
    ∃ d, max_by_severity l = some d ∧ d ∈ l ∧
      ∀ x ∈ l, x.severity ≤ d.severity := by
  have go : ∀ (t : List Decision) (a : Decision),
      ∃ d, t.foldl
          (fun acc d =>
            match acc with
            | none => some d
            | some a => if a.severity ≤ d.severity then some d else some a)
          (some a) = some d ∧ (d = a ∨ d ∈ t) ∧ a.severity ≤ d.severity ∧
        ∀ x ∈ t, x.severity ≤ d.severity := by
    intro t
    induction t with
    | nil => exact fun a => ⟨a, rfl, Or.inl rfl, le_refl _, by simp⟩
    | cons b t ih =>
      intro a
      by_cases hab : a.severity ≤ b.severity
      · obtain ⟨d, hfold, hmem, hge, hall⟩ := ih b
        refine ⟨d, ?_, ?_, ?_, ?_⟩
        · simpa [hab] using hfold
        · rcases hmem with h | h
          · exact Or.inr (by simp [h])
          · exact Or.inr (by simp [h])
        · exact le_trans hab hge
        · intro x hx
          rcases List.mem_cons.mp hx with h | h
          · subst h; exact hge
          · exact hall x h
      · obtain ⟨d, hfold, hmem, hge, hall⟩ := ih a
        refine ⟨d, ?_, ?_, ?_, ?_⟩
        · simpa [hab] using hfold
        · rcases hmem with h | h
          · exact Or.inl h
          · exact Or.inr (by simp [h])
        · exact hge
        · intro x hx
          rcases List.mem_cons.mp hx with h | h
          · subst h
            exact le_trans (le_of_not_le hab) hge
          · exact hall x h
  match l, hne with
  | a :: t, _ =>
    obtain ⟨d, hfold, hmem, hge, hall⟩ := go t a
    refine ⟨d, hfold, ?_, ?_⟩
    · rcases hmem with h | h
      · simp [h]
      · simp [h]
    · intro x hx
      rcases List.mem_cons.mp hx with h | h
      · subst h; exact hge
      · exact hall x h

/-- A decision of severity at least 2 is `deny`. -/
theorem severity_ge_two (d : Decision) (h : 2 ≤ d.severity) : d = .deny := by
  cases d <;> simp [Decision.severity] at h ⊢

/-- The characterization of `aggregate_decisions` when some element is
listed. -/
theorem aggregate_decisions_some (ds : List (Option Decision))
    (h : ∃ x ∈ ds, x ≠ none) :
    ∃ d, aggregate_decisions ds = some d ∧
      d ∈ ds.map (fun x => x.getD .ask) ∧
      ∀ x ∈ ds.map (fun x => x.getD .ask), x.severity ≤ d.severity := by
  obtain ⟨x, hx, hxne⟩ := h
  have hne : ds ≠ [] := by
    intro hnil; subst hnil; simp at hx
  have hany : ds.any (·.isSome) = true := by
    refine List.any_eq_true.mpr ⟨x, hx, ?_⟩
    cases x with
    | none => exact absurd rfl hxne
    | some v => rfl
  have hmapne : ds.map (fun x => x.getD .ask) ≠ [] := by
    simpa using hne
  obtain ⟨d, hmax, hmem, hall⟩ := max_by_severity_spec _ hmapne
  refine ⟨d, ?_, hmem, hall⟩
  simp only [aggregate_decisions, hany]
  simp [List.isEmpty_iff, hne, max_by_severity] at hmax ⊢
  exact hmax

/-! ## Claim C5 -/

/-- C5: aggregation over per-entity optional decisions.  An empty list
or an all-`none` list aggregates to `none`; otherwise every `none` is
substituted by `Ask` and the decision of highest severity is returned;
in particular any listed `Deny` makes the aggregate `Deny`, and an
`Allow` combined with an unlisted `none` yields `Ask`. -/
theorem C5_aggregate_decisions :
    aggregate_decisions [] = none
    ∧ (∀ ds : List (Option Decision), (∀ x ∈ ds, x = none) →
        aggregate_decisions ds = none)
    ∧ (∀ ds : List (Option Decision), (∃ x ∈ ds, x ≠ none) →
        ∃ d, aggregate_decisions ds = some d ∧
          d ∈ ds.map (fun x => x.getD .ask) ∧
          ∀ x ∈ ds.map (fun x => x.getD .ask), x.severity ≤ d.severity)
    ∧ (∀ ds : List (Option Decision), some Decision.deny ∈ ds →
        aggregate_decisions ds = some .deny)
    ∧ aggregate_decisions [some .allow, none] = some .ask := by
  refine ⟨rfl, ?_, aggregate_decisions_some, ?_, by decide⟩
  · intro ds hall
    simp only [aggregate_decisions]
    by_cases hempty : ds.isEmpty
    · simp [hempty]
    · have : ds.any (·.isSome) = false := by
        refine List.any_eq_false.mpr ?_
        intro x hx
        rw [hall x hx]
        simp
      simp [hempty, this]
  · intro ds hdeny
    obtain ⟨d, hagg, hmem, hall⟩ :=
      aggregate_decisions_some ds ⟨some .deny, hdeny, by simp⟩
    have hdmem : Decision.deny ∈ ds.map (fun x => x.getD .ask) :=
      List.mem_map.mpr ⟨some .deny, hdeny, rfl⟩
    have := hall _ hdmem
    rw [hagg, severity_ge_two d this]

/-- C5 witness: the characterizations applied at concrete inputs. -/
theorem C5_aggregate_decisions_witness :
    aggregate_decisions [some .allow, some .deny, none] = some .deny
    ∧ aggregate_decisions [none, none] = none :=
  ⟨C5_aggregate_decisions.2.2.2.1 _ (by simp),
   C5_aggregate_decisions.2.1 _ (by simp)⟩

/-! ## Claim C8 -/

/-- C8: during file lookup, a rule whose pattern fails glob compilation
at match time counts as matching in the deny and ask tiers (forcing
`Deny` resp. `Ask`) and as non-matching in the allow tier (a broken
pattern never produces `Allow`). -/
theorem C8_invalid_glob_fail_closed (path cwd raw pat : String)
    (op : FileOperation) (ops : List FileOperation) (line : Nat)
    (hop : ops.contains op = true)
    (hbad : globParse (rust_replace pat "<cwd>" cwd) = none) :
    FilesConfig.lookup ⟨[⟨raw, .ok pat, ops, line⟩], [], []⟩ path op cwd = some .deny
    ∧ FilesConfig.lookup ⟨[], [⟨raw, .ok pat, ops, line⟩], []⟩ path op cwd = some .ask
    ∧ FilesConfig.lookup ⟨[], [], [⟨raw, .ok pat, ops, line⟩]⟩ path op cwd = none := by
  have hmem : op ∈ ops := by simpa using hop
  refine ⟨?_, ?_, ?_⟩ <;>
    simp [FilesConfig.lookup, has_expansion_error, matches_any_rule, hmem,
      pathMatches, hbad]

/-- C8 witness: the unclosed character class `[invalid` fails to
compile; in the deny tier it forces `Deny`, in the ask tier `Ask`, and
in the allow tier it does not produce `Allow`. -/
theorem C8_invalid_glob_fail_closed_witness :
    FilesConfig.lookup ⟨[⟨"[invalid", .ok "[invalid", [.read], 1⟩], [], []⟩ "/x" .read "/" = some .deny
    ∧ FilesConfig.lookup ⟨[], [⟨"[invalid", .ok "[invalid", [.read], 1⟩], []⟩ "/x" .read "/" = some .ask
    ∧ FilesConfig.lookup ⟨[], [], [⟨"[invalid", .ok "[invalid", [.read], 1⟩]⟩ "/x" .read "/" = none :=
  C8_invalid_glob_fail_closed "/x" "/" "[invalid" "[invalid" .read [.read] 1
    (by decide) (by decide)

/-! ## Claim C9 (corrected) -/

/-- C9 counterexample: the Bash variant's `command` field is read with
only `.and_then(|v| v.as_str())` — the empty string is `Some("")`, not
`None` as the claim states. -/
theorem C9_counterexample :
    ToolUse.parse "Bash" (.obj [("command", .str "")]) = .bash (some "")
    ∧ ToolUse.parse "Bash" (.obj [("command", .str "")]) ≠ .bash none :=
  ⟨rfl, by decide⟩

/-- C9 as amended: every text field of the five file-tool variants goes
through `extract_string`, which yields `none` for a missing, non-string
or empty field; the Bash `command` field yields `none` for a missing or
non-string field but maps the empty string to `some ""`. -/
theorem C9_text_field_extraction :
    (∀ (j : Json) (field : String),
      (j.get field).bind Json.asStr = none → extract_string j field = none)
    ∧ (∀ (j : Json) (field : String),
      (j.get field).bind Json.asStr = some "" → extract_string j field = none)
    ∧ (∀ j : Json,
        ToolUse.parse "Read" j = .read (extract_string j "file_path")
        ∧ ToolUse.parse "Write" j = .write (extract_string j "file_path")
        ∧ ToolUse.parse "Edit" j = .edit (extract_string j "file_path")
        ∧ ToolUse.parse "Glob" j = .glob (extract_string j "path")
        ∧ ToolUse.parse "Grep" j = .grep (extract_string j "path"))
    ∧ (∀ j : Json,
        ToolUse.parse "Bash" j = .bash ((j.get "command").bind Json.asStr))
    ∧ ToolUse.parse "Bash" (.obj [("command", .str "")]) = .bash (some "") := by
  refine ⟨?_, ?_, ?_, ?_, rfl⟩
  · intro j field h
    simp [extract_string, h]
  · intro j field h
    simp [extract_string, h]
  · intro j
    exact ⟨rfl, rfl, rfl, rfl, rfl⟩
  · intro j
    rfl

/-- C9 witness: the extraction rules applied at concrete inputs — a
missing field, a numeric field and an empty-string field all reduce to
`none`. -/
theorem C9_text_field_extraction_witness :
    extract_string (.obj []) "file_path" = none
    ∧ extract_string (.obj [("file_path", .num 42)]) "file_path" = none
    ∧ extract_string (.obj [("file_path", .str "")]) "file_path" = none :=
  ⟨C9_text_field_extraction.1 _ _ rfl,
   C9_text_field_extraction.1 _ _ rfl,
   C9_text_field_extraction.2.1 _ _ rfl⟩

/-! ## Claim C1 -/

/-- C1: with a config whose files section is present, every hook input
whose tool is Read, Write, Edit, Glob or Grep is dispatched by
`evaluate` to the path-aware file engine `evaluate_file_tool` (per-path
lookup, aggregation, mode modifier); in particular, with `$HOME` set to
`/home/u` and a files deny rule on `~/.ssh/**` for the write operation,
a Write of `~/.ssh/id_rsa` is denied. -/
theorem C1_evaluate_dispatches_file_tools :
    (∀ (shellParse : ShellParse) (cwd : String) (pm : PermissionMode)
       (tn : String) (j : Json) (cfg : Config) (home : Option String)
       (fc : FilesConfig), cfg.files = some fc →
       (tn = "Read" ∨ tn = "Write" ∨ tn = "Edit" ∨ tn = "Glob" ∨ tn = "Grep") →
       evaluate shellParse ⟨cwd, pm, tn, j⟩ (some cfg) home =
         evaluate_file_tool (ToolUse.parse tn j) ⟨cwd, pm, tn, j⟩ cfg home)
    ∧ evaluate shellParseNone
        ⟨"/home/u/proj", .default, "Write", .obj [("file_path", .str "~/.ssh/id_rsa")]⟩
        (some ⟨none, some ⟨[⟨"~/.ssh/**", expand_home (some "/home/u") "~/.ssh/**",
          [.write], 1⟩], [], []⟩⟩)
        (some "/home/u") = some .deny := by
  constructor
  · intro shellParse cwd pm tn j cfg home fc _ htn
    rcases htn with h | h | h | h | h <;> subst h <;> rfl
  · decide

/-- C1 witness: the dispatch equality applied to a concrete Read input
with a files section present. -/
theorem C1_evaluate_dispatches_file_tools_witness :
    evaluate shellParseNone
      ⟨"/c", .default, "Read", .obj [("file_path", .str "/tmp/x")]⟩
      (some { files := some ({} : FilesConfig) }) none =
    evaluate_file_tool (ToolUse.parse "Read" (.obj [("file_path", .str "/tmp/x")]))
      ⟨"/c", .default, "Read", .obj [("file_path", .str "/tmp/x")]⟩
      { files := some ({} : FilesConfig) } none :=
  C1_evaluate_dispatches_file_tools.1 shellParseNone "/c" .default "Read"
    (.obj [("file_path", .str "/tmp/x")]) { files := some {} } none {} rfl
    (Or.inl rfl)

/-! ## Claim C2 -/

/-- C2: when `$HOME` is unset and a file-tool input carries a path
beginning with `~`, normalization returns the `HomeNotSet` error (no
panic — the embedding is a total function), the per-path decision is
forced to `Ask`, and for any files config the overall result under the
default mode is exactly `Ask` — never a silent allow. -/
theorem C2_home_unset_forces_ask (tu : ToolUse) (op : FileOperation)
    (p cwd tn : String) (j : Json) (b : Option BashConfig) (fc : FilesConfig)
    (hpaths : tu.file_paths cwd = some [p])
    (hop : tu.file_operation = some op)
    (htilde : rust_starts_with p "~" = true) :
    NormalizedPath.new p cwd none = .error (.homeNotSet p)
    ∧ evaluate_file_tool tu ⟨cwd, .default, tn, j⟩ ⟨b, some fc⟩ none = some .ask := by
  have hnorm : NormalizedPath.new p cwd none = .error (.homeNotSet p) := by
    simp [NormalizedPath.new, htilde]
  refine ⟨hnorm, ?_⟩
  simp only [evaluate_file_tool, hop, hpaths]
  simp [hnorm, aggregate_decisions, max_by_severity, apply_mode_modifier]

/-- C2 witness: a Write of `~/x` with `$HOME` unset yields `Ask` for
the empty files config. -/
theorem C2_home_unset_forces_ask_witness :
    NormalizedPath.new "~/x" "/" none = .error (.homeNotSet "~/x")
    ∧ evaluate_file_tool (.write (some "~/x")) ⟨"/", .default, "Write", .null⟩
        ⟨none, some {}⟩ none = some .ask :=
  C2_home_unset_forces_ask (.write (some "~/x")) .write "~/x" "/" "Write" .null
    none {} rfl rfl rfl

/-! ## Claim C4 -/

/-- C4: bash rule keys are basename-normalized the same way matched
programs are.  A whitespace-free rule string is stored as
`ProgramName.new` of itself with empty conditions; a rule with empty
conditions matches exactly the walker segments whose (already
basename-normalized) program equals the stored key, so the comparison is
basename-vs-basename.  In particular the rule key `/usr/bin/rm` is
stored as `rm` and matches the bare command `rm`, including through a
deny-tier lookup. -/
theorem C4_rule_keys_basename_normalized :
    (∀ (shellParse : ShellParse) (s : String),
      rust_trim s = s → s ≠ "" → (rust_split_whitespace s).length ≤ 1 →
      parse_rule_entry shellParse s = .ok ⟨ProgramName.new s, {}⟩)
    ∧ (∀ (k p : String) (args : List String),
      (⟨ProgramName.new k, {}⟩ : BashRule).matches ⟨ProgramName.new p, args⟩ =
        (ProgramName.new k == ProgramName.new p))
    ∧ parse_rule_entry shellParseNone "/usr/bin/rm" = .ok ⟨"rm", {}⟩
    ∧ (⟨ProgramName.new "/usr/bin/rm", {}⟩ : BashRule).matches
        ⟨ProgramName.new "rm", []⟩ = true
    ∧ BashConfig.lookup ⟨[], [⟨ProgramName.new "/usr/bin/rm", {}⟩], []⟩
        ⟨ProgramName.new "rm", []⟩ = some .deny := by
  refine ⟨?_, ?_, rfl, by decide, by decide⟩
  · intro shellParse s h1 h2 h3
    rw [parse_rule_entry, h1, if_neg h2, if_pos h3]
  · intro k p args
    simp [BashRule.matches, BashRule.program_matches, BashRule.flags_match,
      BashRule.subcommand_matches, BashRule.positionals_match,
      BashRule.required_arguments_match, BashRule.subcommands_match]

/-- C4 witness: the parse characterization applied to the path-bearing
key `/usr/bin/rm` and the matching characterization applied to it
against the bare command `rm`. -/
theorem C4_rule_keys_basename_normalized_witness :
    parse_rule_entry shellParseNone "/bin/mv" = .ok ⟨ProgramName.new "/bin/mv", {}⟩
    ∧ (⟨ProgramName.new "/usr/bin/rm", {}⟩ : BashRule).matches
        ⟨ProgramName.new "rm", ["-r"]⟩ =
        (ProgramName.new "/usr/bin/rm" == ProgramName.new "rm") :=
  ⟨C4_rule_keys_basename_normalized.1 shellParseNone "/bin/mv" rfl (by decide) (by decide),
   C4_rule_keys_basename_normalized.2.1 "/usr/bin/rm" "rm" ["-r"]⟩

/-! ## Claim C3 (corrected) -/

/-- An empty token list never matches a non-empty string. -/
theorem globMatchFuel_nil_cons (litSep : Bool) (f : Nat) (c : Char) (cs : List Char) :
    globMatchFuel litSep f .core [] (c :: cs) = false := by
  cases f <;> rfl

/-- With the literal separator off (the `globset` default used by
`src/path.rs`), a single `*` matches any remaining characters,
separators included. -/
theorem star_matches_anything (cs : List Char) :
    ∀ fuel, cs.length + 2 ≤ fuel →
      globMatchFuel false fuel .core [.zeroOrMore] cs = true := by
  induction cs with
  | nil =>
    intro fuel h
    obtain ⟨f, rfl⟩ : ∃ f, fuel = f + 2 := ⟨fuel - 2, by omega⟩
    rfl
  | cons c cs ih =>
    intro fuel h
    obtain ⟨f, rfl⟩ : ∃ f, fuel = f + 2 := ⟨fuel - 2, by omega⟩
    have hrec := ih (f + 1) (by simp at h; omega)
    have step : globMatchFuel false (f + 2) .core [.zeroOrMore] (c :: cs) =
        (false || globMatchFuel false (f + 1) .core [.zeroOrMore] cs) := rfl
    rw [step, Bool.false_or]
    exact hrec

/-- With the literal separator on (as compiled by
`src/config/rule.rs::compile_glob`), a single `*` matches exactly the
separator-free remainders. -/
theorem star_stops_at_separator (cs : List Char) :
    ∀ fuel, cs.length + 2 ≤ fuel →
      (globMatchFuel true fuel .core [.zeroOrMore] cs = true ↔ '/' ∉ cs) := by
  induction cs with
  | nil =>
    intro fuel h
    obtain ⟨f, rfl⟩ : ∃ f, fuel = f + 2 := ⟨fuel - 2, by omega⟩
    simp
    rfl
  | cons c cs ih =>
    intro fuel h
    obtain ⟨f, rfl⟩ : ∃ f, fuel = f + 2 := ⟨fuel - 2, by omega⟩
    have hrec := ih (f + 1) (by simp at h; omega)
    have step : globMatchFuel true (f + 2) .core [.zeroOrMore] (c :: cs) =
        (false || ((!(decide (c = '/'))) &&
          globMatchFuel true (f + 1) .core [.zeroOrMore] cs)) := rfl
    rw [step, Bool.false_or]
    by_cases hc : c = '/'
    · subst hc; simp
    · simp [hc, hrec, List.mem_cons]
      exact fun _ h => hc h.symm

/-- C3 corrected claim's counterexample: the file matching engine
(`src/path.rs::matches`, used by `matches_any_rule`) compiles with
`globset` defaults, so the pattern `/foo/*` *does* match the path
`/foo/a/b` — the single `*` crosses the `/` separator, contradicting the
claim. -/
theorem C3_counterexample : pathMatches "/foo/a/b" "/foo/*" = some true := by
  decide

/-- C3 as amended: in the bash positional engine (`compile_glob`, with
`literal_separator(true)`) a single `*` never matches across `/` — on
its own it matches exactly the separator-free strings — while in the
file engine (`pathMatches`, `globset` defaults) `*` also crosses `/`;
`**` spans separators in both engines. -/
theorem C3_star_separator_semantics :
    (∀ cs : List Char, matchTokens false [.zeroOrMore] cs = true)
    ∧ (∀ cs : List Char, matchTokens true [.zeroOrMore] cs = true ↔ '/' ∉ cs)
    ∧ (compile_glob "/foo/*").map (fun p => p.is_match "/foo/a/b") = some false
    ∧ (compile_glob "/foo/*").map (fun p => p.is_match "/foo/ab") = some true
    ∧ (compile_glob "/foo/**").map (fun p => p.is_match "/foo/a/b") = some true
    ∧ pathMatches "/foo/a/b" "/foo/*" = some true
    ∧ pathMatches "/foo/a/b" "/foo/**" = some true := by
  refine ⟨?_, ?_, by decide, by decide, by decide, by decide, by decide⟩
  · intro cs
    exact star_matches_anything cs _ (by simp [matchTokens]; omega)
  · intro cs
    exact star_stops_at_separator cs _ (by simp [matchTokens]; omega)

/-! ## Claim C7 -/

/-- C7: a bash rule with both an inline subcommand (from the rule
string `git push`) and children `subcommands` chains (`origin`,
`upstream`) is normalized after parsing: exactly one rule results, with
the inline prefix prepended to every chain and the inline field
cleared — `subcommands = [[push, origin], [push, upstream]]`.  The
shell fragment parser is out of scope; the hypothesis pins its result
on `git push` to what any faithful shell parser produces (spec §4.1). -/
theorem C7_inline_subcommand_normalization (shellParse : ShellParse)
    (line cline : Nat)
    (hparse : shellParse "git push" = .ok [⟨"git", ["push"]⟩]) :
    parse_rules shellParse
      [⟨["git push"], some [⟨"subcommands", ["origin", "upstream"], cline⟩], line⟩]
      = .ok [⟨"git", { subcommands := [["push", "origin"], ["push", "upstream"]] }⟩] := by
  have h0 : parse_rule_entry shellParse "git push" =
      .ok ⟨"git", { subcommand := ["push"] }⟩ := by
    rw [parse_rule_entry]
    rw [show rust_trim "git push" = "git push" from rfl]
    rw [if_neg (by decide), if_neg (by decide), hparse]
    rfl
  simp only [parse_rules, List.foldlM, List.mapM, List.mapM.loop, h0]
  rfl

/-- C7 witness: the normalization applied with a concrete stand-in
parser for the `git push` fragment. -/
theorem C7_inline_subcommand_normalization_witness :
    parse_rules shellParseGitPush
      [⟨["git push"], some [⟨"subcommands", ["origin", "upstream"], 2⟩], 1⟩]
      = .ok [⟨"git", { subcommands := [["push", "origin"], ["push", "upstream"]] }⟩] :=
  C7_inline_subcommand_normalization shellParseGitPush 1 2 rfl

/-! ## Claim C6 (corrected) -/

/-- C6 counterexample: wrapper invariance fails when the wrapped word is
itself a transparent wrapper.  Under a bash deny rule on `env`, the
command `command env` collapses to the single segment
`(command, [env])`, no rule matches and the hook has no opinion, while
`env` alone is denied — wrapping with `command` does change the decision
on `env`, refuting the claim's universal quantification over program
names `X`. -/
theorem C6_counterexample :
    visit_simple_command shellParseNone "command" (some [.word "env"]) =
      [⟨"command", ["env"]⟩]
    ∧ visit_simple_command shellParseNone "env" (some []) = [⟨"env", []⟩]
    ∧ (aggregate_decisions
        ((visit_simple_command shellParseNone "command" (some [.word "env"])).map
          (fun seg => BashConfig.lookup ⟨[], [⟨"env", {}⟩], []⟩ seg))).map
        (fun d => apply_mode_modifier d .default) = none
    ∧ (aggregate_decisions
        ((visit_simple_command shellParseNone "env" (some [])).map
          (fun seg => BashConfig.lookup ⟨[], [⟨"env", {}⟩], []⟩ seg))).map
        (fun d => apply_mode_modifier d .default) = some .deny :=
  ⟨rfl, rfl, rfl, rfl⟩

/-- C6 as amended: wrapper invariance for genuinely wrapped programs.
For every wrapper `W` in {env, command, nohup, exec, builtin} and every
program word `X` that is not an option, not an assignment and not itself
a transparent wrapper, the walker produces the same segments for
`W X args...` as for `X args...`; consequently, for every bash config
and permission mode, the aggregated, mode-modified decision is the
same — wrapping cannot bypass a deny rule on such an `X`.  (When `X` is
itself a wrapper the invariance fails; see the counterexample.) -/
theorem C6_wrapper_invariance (shellParse : ShellParse) (W X : String)
    (args : List SuffixItem) (bc : BashConfig) (mode : PermissionMode)
    (hW : W ∈ TRANSPARENT_WRAPPERS)
    (hX1 : X ≠ "")
    (hX2 : rust_starts_with X "-" = false)
    (hX3 : rust_contains_char X '=' = false)
    (hX4 : TRANSPARENT_WRAPPERS.contains (pathBasename X) = false) :
    visit_simple_command shellParse W (some (.word X :: args)) =
      visit_simple_command shellParse X (some args)
    ∧ (aggregate_decisions
        ((visit_simple_command shellParse W (some (.word X :: args))).map
          (fun seg => bc.lookup seg))).map
        (fun d => apply_mode_modifier d mode) =
      (aggregate_decisions
        ((visit_simple_command shellParse X (some args)).map
          (fun seg => bc.lookup seg))).map
        (fun d => apply_mode_modifier d mode) := by
  have hX4m : pathBasename X ∉ TRANSPARENT_WRAPPERS := by simpa using hX4
  have hWb : pathBasename W = W := by fin_cases hW <;> rfl
  have hWne : W ≠ "" := by fin_cases hW <;> decide
  have hWmem : pathBasename W ∈ TRANSPARENT_WRAPPERS := by rw [hWb]; exact hW
  have hsegs : visit_simple_command shellParse W (some (.word X :: args)) =
      visit_simple_command shellParse X (some args) := by
    have hstep : fnp_step shellParse (consuming_options_for W)
        false false (.word X) = .inl (.single X) := by
      simp [fnp_step, hX2, hX3, hX1]
    have hfnp : find_next_program shellParse (consuming_options_for W)
        false false (.word X :: args) = (.single X, args) := by
      simp [find_next_program, hstep]
    simp [visit_simple_command, hWne, hWmem, hW, hX1, hX4m, hWb,
      extract_wrapped_programs, extract_wrapped_aux, hfnp,
      collect_remaining_args, extract_args_from_suffix]
  exact ⟨hsegs, by rw [hsegs]⟩

/-- C6 witness: `env rm -rf /` and `rm -rf /` produce the same segments
and the same decision under a deny rule on `rm`. -/
theorem C6_wrapper_invariance_witness :
    visit_simple_command shellParseNone "env" (some [.word "rm", .word "-rf", .word "/"]) =
      visit_simple_command shellParseNone "rm" (some [.word "-rf", .word "/"])
    ∧ (aggregate_decisions
        ((visit_simple_command shellParseNone "env"
            (some [.word "rm", .word "-rf", .word "/"])).map
          (fun seg => BashConfig.lookup ⟨[], [⟨"rm", {}⟩], []⟩ seg))).map
        (fun d => apply_mode_modifier d .default) =
      (aggregate_decisions
        ((visit_simple_command shellParseNone "rm" (some [.word "-rf", .word "/"])).map
          (fun seg => BashConfig.lookup ⟨[], [⟨"rm", {}⟩], []⟩ seg))).map
        (fun d => apply_mode_modifier d .default) :=
  C6_wrapper_invariance shellParseNone "env" "rm" [.word "-rf", .word "/"]
    ⟨[], [⟨"rm", {}⟩], []⟩ .default (by decide) (by decide) rfl rfl rfl

/-! ## Claim C10 -/

/-- C10: a transparent wrapper whose suffix holds no extractable
program — nothing at all, or only assignment words, skipped options and
their consumed arguments (i.e. `find_next_program` comes back empty) —
is emitted as a single segment whose program is the wrapper name itself,
so tier rules keyed on the wrapper name apply to bare wrapper
invocations. -/
theorem C10_bare_wrapper_emitted (shellParse : ShellParse) (W : String)
    (suffix : Option (List SuffixItem))
    (hW : W ∈ TRANSPARENT_WRAPPERS)
    (h : suffix = none ∨ ∃ items, suffix = some items ∧
      (find_next_program shellParse (consuming_options_for W) false false items).1 =
        NextProgram.none) :
    visit_simple_command shellParse W suffix =
      [⟨W, extract_args_from_suffix suffix⟩] := by
  have hWb : pathBasename W = W := by fin_cases hW <;> rfl
  have hWne : W ≠ "" := by fin_cases hW <;> decide
  have hWp : ProgramName.new W = W := by fin_cases hW <;> rfl
  have hWmem : pathBasename W ∈ TRANSPARENT_WRAPPERS := by rw [hWb]; exact hW
  rcases h with h | ⟨items, rfl, hfnp⟩
  · subst h
    simp [visit_simple_command, hWne, hWmem, hW, hWp, extract_args_from_suffix]
  · rcases hfd : find_next_program shellParse (consuming_options_for W)
      false false items with ⟨np, rest⟩
    rw [hfd] at hfnp
    simp at hfnp
    subst hfnp
    simp [visit_simple_command, hWne, hWmem, hW, hWb, hWp,
      extract_wrapped_programs, extract_wrapped_aux, hfd,
      extract_args_from_suffix]

/-- C10 witness: `env FOO=bar` and bare `env` each emit one segment
with program `env`. -/
theorem C10_bare_wrapper_emitted_witness :
    visit_simple_command shellParseNone "env" (some [.word "FOO=bar"]) =
      [⟨"env", extract_args_from_suffix (some [.word "FOO=bar"])⟩]
    ∧ visit_simple_command shellParseNone "env" none =
      [⟨"env", extract_args_from_suffix none⟩] :=
  ⟨C10_bare_wrapper_emitted shellParseNone "env" (some [.word "FOO=bar"])
      (by decide) (Or.inr ⟨[.word "FOO=bar"], rfl, rfl⟩),
   C10_bare_wrapper_emitted shellParseNone "env" none (by decide) (Or.inl rfl)⟩

end CPH
